import Mathlib

/-!
Verification development for the persistence layer of the
SillyTavern-BotBrowser extension (module: IndexedDB wrapper, memory cache,
bounded collections, TTL response cache).

The JavaScript module is shallowly embedded: the global `memoryCache`
object and the two backing stores (localForage / IndexedDB and
localStorage) become an explicit `World` state threaded through every
operation; asynchronous durable writes are applied to the backend state at
the point where the source schedules them; a record whose field access
would throw in JavaScript (e.g. a null card) is modelled as `Option.none`,
which routes the operation into its catch branch.  The many presentation
fields copied from a card into a stored record (name, avatar, service
flags, ...) are never inspected by the module's logic and are collapsed
into one opaque `fields` string.
-/

/-- A card coming from a catalog source: stable `id` plus opaque
presentation/import metadata (name, creator, avatar, service flags, ...). -/
structure Card where
  id : String
  fields : String
deriving DecidableEq, Repr

/-- A recently-viewed entry as built by `addToRecentlyViewed` (the copied
card fields are collapsed into `fields`). -/
structure RVRec where
  id : String
  fields : String
deriving DecidableEq, Repr

/-- A bookmark entry as built by `addBookmark` (`bookmarkedAt` is the
`new Date().toISOString()` timestamp, modelled as an integer clock). -/
structure BMRec where
  id : String
  fields : String
  bookmarkedAt : Int
deriving DecidableEq, Repr

/-- An import-history entry as built by `trackImportedCard`. -/
structure IMRec where
  id : String
  fields : String
  recType : String
  importedAt : Int
deriving DecidableEq, Repr

/-- The aggregate import-statistics object; the module persists and
retrieves it as an opaque blob. -/
structure ImportStats where
  blob : String
deriving DecidableEq, Repr

/-- Per-source persisted search state
`{filters, sortBy, advancedFilters, jannyAdvancedFilters, ctAdvancedFilters,
wyvernAdvancedFilters}`; the contents are opaque to the persistence layer. -/
structure SearchData where
  filters : String
  sortBy : String
  advancedFilters : Option String := none
  jannyAdvancedFilters : Option String := none
  ctAdvancedFilters : Option String := none
  wyvernAdvancedFilters : Option String := none
deriving DecidableEq, Repr

/-- A value stored in the durable key-value store.  The source stores
JavaScript values; this module only ever writes values of these shapes. -/
inductive Val where
  | bool (b : Bool)
  | rv (l : List RVRec)
  | stats (s : ImportStats)
  | bm (l : List BMRec)
  | im (l : List IMRec)
  | cacheEntry (timestamp : Int) (payload : String)
  | search (d : SearchData)
deriving DecidableEq, Repr

/-- A value stored in the legacy synchronous store (localStorage): a JSON
string that either parses back to a `Val` (`good`) or makes `JSON.parse`
throw (`bad`). -/
inductive LsVal where
  | good (v : Val)
  | bad
deriving DecidableEq, Repr

/-- Association-list read (models keyed access into a key-value store). -/
def assocGet {α : Type} : List (String × α) → String → Option α
  | [], _ => none
  | (k', v) :: rest, k => if k' = k then some v else assocGet rest k

/-- Association-list write: replace in place if present, else append. -/
def assocSet {α : Type} : List (String × α) → String → α → List (String × α)
  | [], k, v => [(k, v)]
  | (k', v') :: rest, k, v =>
    if k' = k then (k, v) :: rest else (k', v') :: assocSet rest k v

/-- The two backing stores: `lf` is the durable asynchronous store
(localForage over IndexedDB), `ls` the legacy synchronous store
(localStorage).  `lfFail` / `lsFail` model the respective store's
operations throwing. -/
structure Backend where
  lf : List (String × Val)
  lfFail : Bool
  ls : List (String × LsVal)
  lsFail : Bool
deriving DecidableEq, Repr

/-- `localforage.setItem`, which may throw. -/
def lfSetItem (b : Backend) (k : String) (v : Val) : Except Unit Backend :=
  if b.lfFail then .error () else .ok { b with lf := assocSet b.lf k v }

/-- `localforage.getItem`, which may throw; `none` is a missing key. -/
def lfGetItem (b : Backend) (k : String) : Except Unit (Option Val) :=
  if b.lfFail then .error () else .ok (assocGet b.lf k)

/-- `localStorage.setItem(key, JSON.stringify(val))`, which may throw
(e.g. quota); a successful write stores a parsable JSON string. -/
def lsSetItemE (b : Backend) (k : String) (v : LsVal) : Except Unit Backend :=
  if b.lsFail then .error () else .ok { b with ls := assocSet b.ls k v }

/-- `localStorage.getItem` (used without try/catch in the source). -/
def lsGetItem (b : Backend) (k : String) : Option LsVal :=
  assocGet b.ls k

/-- `idbSet`: write to the durable store; on failure fall back to a
best-effort legacy-store write whose own failure is also swallowed.
Always returns normally. -/
def idbSet (b : Backend) (k : String) (v : Val) : Backend :=
  match lfSetItem b k v with
  | .ok b' => b'
  | .error _ =>
    match lsSetItemE b k (.good v) with
    | .ok b' => b'
    | .error _ => b

/-- `idbGet`: read from the durable store; a throwing read is caught and
reported as `null` (absent). -/
def idbGet (b : Backend) (k : String) : Option Val :=
  match lfGetItem b k with
  | .ok v => v
  | .error _ => none

/-- `idbGetCachedApi(key, ttlMs)`: returns the cached payload only when an
entry exists, its timestamp is truthy, and `now - timestamp < ttlMs`. -/
def idbGetCachedApi (now : Int) (b : Backend) (k : String) (ttlMs : Int) :
    Option String :=
  match idbGet b k with
  | some (Val.cacheEntry ts payload) =>
    if ts ≠ 0 ∧ now - ts < ttlMs then some payload else none
  | _ => none

/-- `idbSetCachedApi(key, payload)`: stores `{timestamp: Date.now(), payload}`. -/
def idbSetCachedApi (now : Int) (b : Backend) (k : String) (payload : String) :
    Backend :=
  idbSet b k (.cacheEntry now payload)

/-- The module-level `memoryCache` object. -/
structure MemoryCache where
  persistentSearches : List (String × SearchData)
  searchCollapsed : Bool
  recentlyViewed : List RVRec
  importStats : ImportStats
  bookmarks : List BMRec
  importedCards : List IMRec
deriving DecidableEq, Repr

/-- The whole mutable state of the module: backing stores, memory cache,
and the `isStorageInitialized` flag. -/
structure World where
  backend : Backend
  cache : MemoryCache
  initialized : Bool
deriving DecidableEq, Repr

/-- The per-extension settings consulted by the module
(`extension_settings[extensionName]`).  A missing `maxRecentlyViewed` is
modelled as `0` (both are falsy in `maxRecentlyViewed || 10`). -/
structure Settings where
  persistentSearchEnabled : Bool := false
  recentlyViewedEnabled : Bool := false
  maxRecentlyViewed : Nat := 0
deriving DecidableEq, Repr

/-- JavaScript `n || 10` on a non-negative integer. -/
def jsOr10 (n : Nat) : Nat := if n = 0 then 10 else n

/-- The initial `memoryCache` value from the module top level. -/
def initialCache : MemoryCache :=
  { persistentSearches := []
    searchCollapsed := false
    recentlyViewed := []
    importStats := { blob := "" }
    bookmarks := []
    importedCards := [] }

/-- A fresh process: empty stores, initial cache, not yet initialized. -/
def emptyWorld : World :=
  { backend := { lf := [], lfFail := false, ls := [], lsFail := false }
    cache := initialCache
    initialized := false }

-- ## Well-known keys

def collapsedKey : String := "botBrowser_searchCollapsed"

def rvKey : String := "botBrowser_recentlyViewed"

def statsKey : String := "botBrowser_importStats"

def bmKey : String := "botBrowser_bookmarks"

def imKey : String := "botBrowser_importedCards"

/-- The fixed key list scanned by `initializeStorage`. -/
def storageKeys : List String := [collapsedKey, rvKey, statsKey, bmKey, imKey]

/-- The stem of the dynamically named per-source search keys
(`botBrowser_lastSearch_<serviceName>`). -/
def lastSearchStem : String := "botBrowser_lastSearch_"

-- ## Per-source search state

/-- `loadPersistentSearch`: gated by `persistentSearchEnabled`; returns the
in-memory slot or `null`. -/
def loadPersistentSearch (s : Settings) (w : World) (serviceName : String) :
    Option SearchData :=
  if !s.persistentSearchEnabled then none
  else assocGet w.cache.persistentSearches serviceName

/-- `savePersistentSearch`: gated by `persistentSearchEnabled`; overwrites
the in-memory slot and best-effort writes the legacy store (its failure is
swallowed). -/
def savePersistentSearch (s : Settings) (w : World) (serviceName : String)
    (d : SearchData) : World :=
  if !s.persistentSearchEnabled then w
  else
    let w := { w with cache := { w.cache with
      persistentSearches := assocSet w.cache.persistentSearches serviceName d } }
    match lsSetItemE w.backend (lastSearchStem ++ serviceName) (.good (.search d)) with
    | .ok b' => { w with backend := b' }
    | .error _ => w

-- ## searchCollapsed

def loadSearchCollapsed (w : World) : Bool := w.cache.searchCollapsed

def saveSearchCollapsed (w : World) (collapsed : Bool) : World :=
  { w with cache := { w.cache with searchCollapsed := collapsed }
           backend := idbSet w.backend collapsedKey (.bool collapsed) }

-- ## Recently viewed

/-- The record built by `addToRecentlyViewed`: the card's id plus the
module's fixed snapshot of presentation fields (collapsed to `fields`). -/
def rvSnapshot (c : Card) : RVRec :=
  { id := c.id, fields := c.fields }

/-- The pure list step of `addToRecentlyViewed`: drop any entry with the
same id, prepend the snapshot, trim to the first `maxRecent` entries
(`slice(0, maxRecent)` applied only when longer, which equals `take`). -/
def addRVList (maxRecent : Nat) (recentlyViewed : List RVRec) (c : Card) :
    List RVRec :=
  ((rvSnapshot c) :: recentlyViewed.filter (fun r => r.id ≠ c.id)).take maxRecent

/-- `loadRecentlyViewed`: gated by `recentlyViewedEnabled`; when the mirror
list is longer than `maxRecentlyViewed || 10` it is truncated in place. -/
def loadRecentlyViewed (s : Settings) (w : World) : World × List RVRec :=
  if !s.recentlyViewedEnabled then (w, [])
  else
    let recentlyViewed := w.cache.recentlyViewed
    let maxRecent := jsOr10 s.maxRecentlyViewed
    if recentlyViewed.length > maxRecent then
      let rv := recentlyViewed.take maxRecent
      ({ w with cache := { w.cache with recentlyViewed := rv } }, rv)
    else (w, recentlyViewed)

/-- `addToRecentlyViewed(extensionName, extension_settings, recentlyViewed,
card)`: gated by the flag; `card = none` models a record whose field access
throws, routing into the catch branch which returns the prior collection. -/
def addToRecentlyViewed (s : Settings) (w : World) (recentlyViewed : List RVRec)
    (card : Option Card) : World × List RVRec :=
  if !s.recentlyViewedEnabled then (w, recentlyViewed)
  else
    match card with
    | none => (w, recentlyViewed)
    | some c =>
      let l := addRVList (jsOr10 s.maxRecentlyViewed) recentlyViewed c
      ({ w with cache := { w.cache with recentlyViewed := l }
                backend := idbSet w.backend rvKey (.rv l) }, l)

-- ## Import stats

def loadImportStats (w : World) : ImportStats := w.cache.importStats

def saveImportStats (w : World) (importStats : ImportStats) : World :=
  { w with cache := { w.cache with importStats := importStats }
           backend := idbSet w.backend statsKey (.stats importStats) }

-- ## Bookmarks

def loadBookmarks (w : World) : List BMRec := w.cache.bookmarks

def saveBookmarks (w : World) (bookmarks : List BMRec) : World :=
  { w with cache := { w.cache with bookmarks := bookmarks }
           backend := idbSet w.backend bmKey (.bm bookmarks) }

/-- The record built by `addBookmark`. -/
def bmSnapshot (now : Int) (c : Card) : BMRec :=
  { id := c.id, fields := c.fields, bookmarkedAt := now }

/-- The pure list step of `addBookmark`: skip entirely if the id is already
bookmarked, else prepend. -/
def addBMList (now : Int) (bookmarks : List BMRec) (c : Card) : List BMRec :=
  if bookmarks.any (fun b => b.id == c.id) then bookmarks
  else bmSnapshot now c :: bookmarks

/-- `addBookmark(card)`: reads the mirror, inserts if absent, persists;
`card = none` models a throwing record, caught and answered with
`loadBookmarks()`. -/
def addBookmark (now : Int) (w : World) (card : Option Card) :
    World × List BMRec :=
  match card with
  | none => (w, loadBookmarks w)
  | some c =>
    let bookmarks := loadBookmarks w
    if bookmarks.any (fun b => b.id == c.id) then (w, bookmarks)
    else
      let l := bmSnapshot now c :: bookmarks
      (saveBookmarks w l, l)

/-- `removeBookmark(cardId)`: filter out the id; persist only when the
length dropped. -/
def removeBookmark (w : World) (cardId : String) : World × List BMRec :=
  let bookmarks := loadBookmarks w
  let filtered := bookmarks.filter (fun b => b.id ≠ cardId)
  if filtered.length < bookmarks.length then (saveBookmarks w filtered, filtered)
  else (w, filtered)

def isBookmarked (w : World) (cardId : String) : Bool :=
  (loadBookmarks w).any (fun b => b.id == cardId)

-- ## Imported cards

def loadImportedCards (w : World) : List IMRec := w.cache.importedCards

def saveImportedCards (w : World) (cards : List IMRec) : World :=
  { w with cache := { w.cache with importedCards := cards }
           backend := idbSet w.backend imKey (.im cards) }

/-- The fresh record built by `trackImportedCard` for a new id. -/
def imRecord (now : Int) (c : Card) (recType : String) : IMRec :=
  { id := c.id, fields := c.fields, recType := recType, importedAt := now }

/-- `findIndex` + `splice(existingIndex, 1)`: detach the first record with
the given id, keeping the rest in order. -/
def removeFirstById (cardId : String) : List IMRec → Option (IMRec × List IMRec)
  | [] => none
  | r :: rest =>
    if r.id = cardId then some (r, rest)
    else
      match removeFirstById cardId rest with
      | some (x, rest') => some (x, r :: rest')
      | none => none

/-- The pure list step of `trackImportedCard`: refresh the timestamp of an
existing record and move it to the front, or prepend a fresh record; then
trim to the fixed ceiling of 500 entries. -/
def trackIMList (now : Int) (importedCards : List IMRec) (c : Card)
    (recType : String) : List IMRec :=
  match removeFirstById c.id importedCards with
  | some (r, rest) => ({ r with importedAt := now } :: rest).take 500
  | none => (imRecord now c recType :: importedCards).take 500

/-- `trackImportedCard(card, type)`: unconditional (no feature flag);
`card = none` models a throwing record, caught and answered with
`loadImportedCards()`. -/
def trackImportedCard (now : Int) (w : World) (card : Option Card)
    (recType : String) : World × List IMRec :=
  match card with
  | none => (w, loadImportedCards w)
  | some c =>
    let l := trackIMList now (loadImportedCards w) c recType
    (saveImportedCards w l, l)

/-- `removeImportedCard(cardId)`: filter out the id; persist only when the
length dropped. -/
def removeImportedCard (w : World) (cardId : String) : World × List IMRec :=
  let importedCards := loadImportedCards w
  let filtered := importedCards.filter (fun c => c.id ≠ cardId)
  if filtered.length < importedCards.length then
    (saveImportedCards w filtered, filtered)
  else (w, filtered)

/-- `clearImportedCards()`. -/
def clearImportedCards (w : World) : World × List IMRec :=
  ({ w with cache := { w.cache with importedCards := [] }
            backend := idbSet w.backend imKey (.im []) }, [])

-- ## Initialization and migration

/-- The per-key memory-cache assignment chain of `initializeStorage`
(the five `if (key === ...)` statements).  The JavaScript assignment is
untyped; this module only ever stores the matching shape under each key,
so a value of another shape leaves the field untouched. -/
def assignCache (mc : MemoryCache) (key : String) (v : Val) : MemoryCache :=
  let mc := if key = collapsedKey then
      match v with | .bool b => { mc with searchCollapsed := b } | _ => mc
    else mc
  let mc := if key = rvKey then
      match v with | .rv l => { mc with recentlyViewed := l } | _ => mc
    else mc
  let mc := if key = statsKey then
      match v with | .stats s => { mc with importStats := s } | _ => mc
    else mc
  let mc := if key = bmKey then
      match v with | .bm l => { mc with bookmarks := l } | _ => mc
    else mc
  let mc := if key = imKey then
      match v with | .im l => { mc with importedCards := l } | _ => mc
    else mc
  mc

/-- JavaScript truthiness of a durable read result, as tested by the
migration guard `if (lsVal && !idbVal)`: absence (null) and the boolean
`false` are falsy; every other value this module stores (arrays, objects,
`true`) is truthy. -/
def jsTruthy : Option Val → Bool
  | none => false
  | some (.bool b) => b
  | some _ => true

/-- One iteration of the migration loop of `initializeStorage`: read the
legacy and durable values; when the legacy value is present and the
durable value is FALSY (absent, or the stored boolean `false`), migrate
legacy → durable, overwriting the durable slot (a legacy parse failure is
swallowed, leaving both stores untouched for that key); then load the
resulting durable value — or, failing that, the parsed legacy value —
into the memory cache. -/
def migrateKey (w : World) (key : String) : World :=
  let lsVal := lsGetItem w.backend key
  let idbVal := idbGet w.backend key
  match lsVal, jsTruthy idbVal with
  | some (.good parsed), false =>
    { w with backend := idbSet w.backend key parsed
             cache := assignCache w.cache key parsed }
  | _, _ =>
    match idbVal with
    | some v => { w with cache := assignCache w.cache key v }
    | none =>
      match lsVal with
      | some (.good parsed) => { w with cache := assignCache w.cache key parsed }
      | _ => w

/-- The secondary pass of `initializeStorage`: scan the legacy store for
`botBrowser_lastSearch_*` keys and mirror each one.  The whole scan sits in
one try/catch, so the first `JSON.parse` failure aborts the remaining
entries. -/
def loadSearchEntries : MemoryCache → List (String × LsVal) → MemoryCache
  | mc, [] => mc
  | mc, (k, v) :: rest =>
    if k.startsWith lastSearchStem then
      match v with
      | .good (.search d) =>
        loadSearchEntries
          { mc with persistentSearches :=
              assocSet mc.persistentSearches (k.drop lastSearchStem.length) d }
          rest
      | .good _ => loadSearchEntries mc rest
      | .bad => mc
    else loadSearchEntries mc rest

/-- `initializeStorage()`: a no-op when already initialized; otherwise run
the migration loop over the well-known keys, mirror the per-source search
keys, and set the initialized flag. -/
def initializeStorage (w : World) : World :=
  if w.initialized then w
  else
    let w := storageKeys.foldl migrateKey w
    let w := { w with cache := loadSearchEntries w.cache w.backend.ls }
    { w with initialized := true }

-- ## Iterated runs (used to state sequence-level properties)

/-- Fold a sequence of cards through `addToRecentlyViewed`, feeding each
call's returned collection into the next, starting from the empty
collection. -/
def rvRun (s : Settings) (w : World) (cs : List Card) : World × List RVRec :=
  cs.foldl (fun p c => addToRecentlyViewed s p.1 p.2 (some c)) (w, [])

/-- Fold a sequence of cards through `addBookmark` (which reads and writes
the memory mirror itself). -/
def bmRun (now : Int) (w : World) (cs : List Card) : World :=
  cs.foldl (fun w c => (addBookmark now w (some c)).1) w

/-- Fold a sequence of cards through `trackImportedCard`. -/
def imRun (now : Int) (recType : String) (w : World) (cs : List Card) : World :=
  cs.foldl (fun w c => (trackImportedCard now w (some c) recType).1) w

-- ## Reference functions on id sequences (specification vocabulary)

/-- One upsert-front step on bare ids with capacity `M`. -/
def upsertIds (M : Nat) (acc : List String) (x : String) : List String :=
  (x :: acc.filter (fun y => y ≠ x)).take M

/-- One unbounded upsert-front step on bare ids. -/
def mrdStep (acc : List String) (x : String) : List String :=
  x :: acc.filter (fun y => y ≠ x)

/-- `mrd xs`: the distinct ids of `xs` ordered most-recent-first. -/
def mrd (xs : List String) : List String := xs.foldl mrdStep []

/-- One insert-if-absent step on bare ids (the `addBookmark` discipline). -/
def fdStep (acc : List String) (x : String) : List String :=
  if x ∈ acc then acc else x :: acc

/-- `fdr xs`: the distinct ids of `xs`, each at the position of its FIRST
insertion, newest-first. -/
def fdr (xs : List String) : List String := xs.foldl fdStep []

-- ## Basic store lemmas

theorem assocGet_assocSet {α : Type} (l : List (String × α)) (k k' : String)
    (v : α) :
    assocGet (assocSet l k v) k' = if k = k' then some v else assocGet l k' := by
  induction l with
  | nil => simp [assocGet, assocSet]
  | cons p rest ih =>
    obtain ⟨k0, v0⟩ := p
    by_cases h0 : k0 = k
    · subst h0
      by_cases h1 : k0 = k' <;> simp [assocSet, assocGet, h1]
    · simp only [assocSet, if_neg h0, assocGet]
      by_cases h1 : k0 = k'
      · subst h1
        have : ¬ k = k0 := fun h => h0 h.symm
        simp [assocGet, this]
      · simp [assocGet, h1, ih]

theorem idbSet_lfFail (b : Backend) (k : String) (v : Val) :
    (idbSet b k v).lfFail = b.lfFail := by
  by_cases hf : b.lfFail <;> by_cases hs : b.lsFail <;>
    simp [idbSet, lfSetItem, lsSetItemE, hf, hs]

theorem idbGet_idbSet_self (b : Backend) (k : String) (v : Val)
    (h : b.lfFail = false) : idbGet (idbSet b k v) k = some v := by
  simp [idbSet, lfSetItem, h, idbGet, lfGetItem, assocGet_assocSet]

theorem idbGet_idbSet_ne (b : Backend) (k k' : String) (v : Val)
    (h : k ≠ k') : idbGet (idbSet b k v) k' = idbGet b k' := by
  by_cases hf : b.lfFail
  · by_cases hs : b.lsFail <;>
      simp [idbSet, lfSetItem, lsSetItemE, hf, hs, idbGet, lfGetItem]
  · simp [idbSet, lfSetItem, hf, idbGet, lfGetItem, assocGet_assocSet, h]

-- ## Take/filter interaction used by the capacity-bound proofs

theorem take_filter_take (x : String) :
    ∀ (l : List String) (m : Nat), l.count x ≤ 1 →
      ((l.take (m + 1)).filter (fun y => y ≠ x)).take m
        = (l.filter (fun y => y ≠ x)).take m := by
  intro l
  induction l with
  | nil => intro m _; simp
  | cons a t ih =>
    intro m hc
    by_cases hax : a = x
    · subst hax
      have hc1 : t.count a + 1 ≤ 1 := by
        simpa [List.count_cons_self] using hc
      have hnot : a ∉ t := by
        intro hmem
        have := List.count_pos_iff.mpr hmem
        omega
      have hfilt : t.filter (fun y => y ≠ a) = t :=
        List.filter_eq_self.mpr (fun b hb => by
          simp only [decide_eq_true_eq]
          exact fun hba => hnot (hba ▸ hb))
      have hfilt2 : (t.take m).filter (fun y => y ≠ a) = t.take m :=
        List.filter_eq_self.mpr (fun b hb => by
          simp only [decide_eq_true_eq]
          exact fun hba => hnot (hba ▸ List.mem_of_mem_take hb))
      have e1 : (a :: t).take (m + 1) = a :: t.take m := List.take_succ_cons ..
      have e2 : ∀ l : List String,
          (a :: l).filter (fun y => y ≠ a) = l.filter (fun y => y ≠ a) := by
        intro l
        simp [List.filter_cons]
      rw [e1, e2, e2, hfilt, hfilt2, List.take_take, Nat.min_self]
    · have hxa : ¬ x = a := fun h => hax h.symm
      have hct : t.count x ≤ 1 := by
        simpa [List.count_cons, hxa] using hc
      cases m with
      | zero => simp
      | succ m' =>
        have e1 : (a :: t).take (m' + 1 + 1) = a :: t.take (m' + 1) :=
          List.take_succ_cons ..
        have e2 : ∀ l : List String,
            (a :: l).filter (fun y => y ≠ x) = a :: l.filter (fun y => y ≠ x) := by
          intro l
          simp [List.filter_cons, hax]
        rw [e1, e2, e2, List.take_succ_cons, List.take_succ_cons, ih m' hct]

-- ## Reference-function lemmas

theorem mrdStep_nodup {acc : List String} (h : acc.Nodup) (x : String) :
    (mrdStep acc x).Nodup := by
  refine List.nodup_cons.mpr ⟨?_, h.filter _⟩
  intro hmem
  have := (List.mem_filter.mp hmem).2
  simp at this

theorem mrd_foldl_nodup :
    ∀ (xs acc : List String), acc.Nodup → (xs.foldl mrdStep acc).Nodup := by
  intro xs
  induction xs with
  | nil => intro acc h; exact h
  | cons x xs ih => intro acc h; exact ih _ (mrdStep_nodup h x)

theorem mrd_nodup (xs : List String) : (mrd xs).Nodup :=
  mrd_foldl_nodup xs [] List.nodup_nil

theorem upsertIds_step (M : Nat) {acc : List String} (h : acc.Nodup)
    (x : String) : upsertIds M (acc.take M) x = (mrdStep acc x).take M := by
  cases M with
  | zero => simp [upsertIds, mrdStep]
  | succ m =>
    simp only [upsertIds, mrdStep, List.take_succ_cons]
    rw [take_filter_take x acc m (List.nodup_iff_count_le_one.mp h x)]

theorem upsertIds_foldl (M : Nat) :
    ∀ (xs acc : List String), acc.Nodup →
      xs.foldl (upsertIds M) (acc.take M) = (xs.foldl mrdStep acc).take M := by
  intro xs
  induction xs with
  | nil => intro acc _; rfl
  | cons x xs ih =>
    intro acc h
    simp only [List.foldl_cons]
    rw [upsertIds_step M h x]
    exact ih (mrdStep acc x) (mrdStep_nodup h x)

theorem upsertIds_foldl_nil (M : Nat) (xs : List String) :
    xs.foldl (upsertIds M) [] = (mrd xs).take M := by
  have := upsertIds_foldl M xs [] List.nodup_nil
  simpa [mrd] using this

theorem upsertIds_nodup (M : Nat) {acc : List String} (h : acc.Nodup)
    (x : String) : (upsertIds M acc x).Nodup := by
  have h1 : (x :: acc.filter (fun y => y ≠ x)).Nodup := mrdStep_nodup h x
  exact h1.sublist (List.take_sublist ..)

theorem fdStep_nodup {acc : List String} (h : acc.Nodup) (x : String) :
    (fdStep acc x).Nodup := by
  unfold fdStep
  by_cases hm : x ∈ acc
  · simpa [hm] using h
  · simpa [hm] using List.nodup_cons.mpr ⟨hm, h⟩

theorem fdr_foldl_nodup :
    ∀ (xs acc : List String), acc.Nodup → (xs.foldl fdStep acc).Nodup := by
  intro xs
  induction xs with
  | nil => intro acc h; exact h
  | cons x xs ih => intro acc h; exact ih _ (fdStep_nodup h x)

theorem fdr_nodup (xs : List String) : (fdr xs).Nodup :=
  fdr_foldl_nodup xs [] List.nodup_nil

-- ## Mapping record operations onto bare-id operations

theorem filter_map_ne {α : Type} (f : α → String) (i : String) :
    ∀ l : List α,
      (l.filter (fun r => f r ≠ i)).map f = (l.map f).filter (fun y => y ≠ i) := by
  intro l
  induction l with
  | nil => rfl
  | cons a t ih =>
    by_cases h : f a = i
    · have e1 : (a :: t).filter (fun r => f r ≠ i) = t.filter (fun r => f r ≠ i) := by
        simp [List.filter_cons, h]
      have e2 : (f a :: t.map f).filter (fun y => y ≠ i)
          = (t.map f).filter (fun y => y ≠ i) := by
        simp [List.filter_cons, h]
      rw [List.map_cons, e1, e2, ih]
    · have e1 : (a :: t).filter (fun r => f r ≠ i)
          = a :: t.filter (fun r => f r ≠ i) := by
        simp [List.filter_cons, h]
      have e2 : (f a :: t.map f).filter (fun y => y ≠ i)
          = f a :: (t.map f).filter (fun y => y ≠ i) := by
        simp [List.filter_cons, h]
      rw [List.map_cons, e1, e2, List.map_cons, ih]

theorem addRVList_map (M : Nat) (l : List RVRec) (c : Card) :
    (addRVList M l c).map RVRec.id = upsertIds M (l.map RVRec.id) c.id := by
  unfold addRVList upsertIds
  rw [List.map_take, List.map_cons, filter_map_ne RVRec.id c.id l]
  rfl

theorem addRV_foldl_map (M : Nat) :
    ∀ (cs : List Card) (l : List RVRec),
      (cs.foldl (addRVList M) l).map RVRec.id
        = (cs.map Card.id).foldl (upsertIds M) (l.map RVRec.id) := by
  intro cs
  induction cs with
  | nil => intro l; rfl
  | cons c cs ih =>
    intro l
    simp only [List.foldl_cons, List.map_cons]
    rw [ih, addRVList_map]

theorem any_beq_mem {α : Type} (f : α → String) (i : String) (l : List α) :
    l.any (fun r => f r == i) = true ↔ i ∈ l.map f := by
  rw [List.any_eq_true]
  constructor
  · rintro ⟨r, hr, hb⟩
    have he : f r = i := beq_iff_eq.mp hb
    exact he ▸ List.mem_map_of_mem f hr
  · intro hm
    obtain ⟨r, hr, he⟩ := List.mem_map.mp hm
    exact ⟨r, hr, by simp [he]⟩

theorem addBMList_map (now : Int) (l : List BMRec) (c : Card) :
    (addBMList now l c).map BMRec.id = fdStep (l.map BMRec.id) c.id := by
  unfold addBMList fdStep
  by_cases h : c.id ∈ l.map BMRec.id
  · rw [if_pos ((any_beq_mem BMRec.id c.id l).mpr h), if_pos h]
  · rw [if_neg (fun ha => h ((any_beq_mem BMRec.id c.id l).mp ha)), if_neg h]
    rfl

theorem addBM_foldl_map (now : Int) :
    ∀ (cs : List Card) (l : List BMRec),
      (cs.foldl (addBMList now) l).map BMRec.id
        = (cs.map Card.id).foldl fdStep (l.map BMRec.id) := by
  intro cs
  induction cs with
  | nil => intro l; rfl
  | cons c cs ih =>
    intro l
    simp only [List.foldl_cons, List.map_cons]
    rw [ih, addBMList_map]

theorem removeFirstById_none (i : String) :
    ∀ l : List IMRec, removeFirstById i l = none → ∀ r ∈ l, r.id ≠ i := by
  intro l
  induction l with
  | nil => intro _ r hr; cases hr
  | cons a t ih =>
    intro h r hr
    unfold removeFirstById at h
    by_cases ha : a.id = i
    · simp [ha] at h
    · rw [if_neg ha] at h
      cases hrt : removeFirstById i t with
      | some p => rw [hrt] at h; cases h
      | none =>
        rcases List.mem_cons.mp hr with h1 | h2
        · exact h1 ▸ ha
        · exact ih hrt r h2

theorem removeFirstById_some (i : String) :
    ∀ (l : List IMRec) (r : IMRec) (rest : List IMRec),
      removeFirstById i l = some (r, rest) →
      (l.map IMRec.id).Nodup →
      r.id = i ∧ rest = l.filter (fun q => q.id ≠ i) := by
  intro l
  induction l with
  | nil => intro r rest h; cases h
  | cons a t ih =>
    intro r rest h hnd
    rw [List.map_cons] at hnd
    have hhead : a.id ∉ t.map IMRec.id := (List.nodup_cons.mp hnd).1
    have htail : (t.map IMRec.id).Nodup := (List.nodup_cons.mp hnd).2
    unfold removeFirstById at h
    by_cases ha : a.id = i
    · rw [if_pos ha] at h
      injection h with h'
      injection h' with h1 h2
      subst h1
      subst h2
      refine ⟨ha, ?_⟩
      have hfilt : t.filter (fun q => q.id ≠ i) = t :=
        List.filter_eq_self.mpr (fun b hb => by
          simp only [decide_eq_true_eq]
          intro hbi
          apply hhead
          have hbm : b.id ∈ t.map IMRec.id := List.mem_map_of_mem IMRec.id hb
          rwa [hbi, ← ha] at hbm)
      have e1 : (a :: t).filter (fun q => q.id ≠ i) = t.filter (fun q => q.id ≠ i) := by
        simp [List.filter_cons, ha]
      rw [e1, hfilt]
    · rw [if_neg ha] at h
      cases hrt : removeFirstById i t with
      | none => rw [hrt] at h; cases h
      | some p =>
        obtain ⟨x, rest'⟩ := p
        rw [hrt] at h
        injection h with h'
        injection h' with h1 h2
        subst h1
        obtain ⟨hx, hrest⟩ := ih x rest' hrt htail
        subst h2
        refine ⟨hx, ?_⟩
        have e1 : (a :: t).filter (fun q => q.id ≠ i)
            = a :: t.filter (fun q => q.id ≠ i) := by
          simp [List.filter_cons, ha]
        rw [e1, hrest]

theorem trackIMList_map (now : Int) (l : List IMRec) (c : Card) (ty : String)
    (hnd : (l.map IMRec.id).Nodup) :
    (trackIMList now l c ty).map IMRec.id = upsertIds 500 (l.map IMRec.id) c.id := by
  unfold trackIMList upsertIds
  cases hrm : removeFirstById c.id l with
  | none =>
    have hall := removeFirstById_none c.id l hrm
    have hfilt : (l.map IMRec.id).filter (fun y => y ≠ c.id) = l.map IMRec.id :=
      List.filter_eq_self.mpr (fun y hy => by
        simp only [decide_eq_true_eq]
        obtain ⟨r, hr, he⟩ := List.mem_map.mp hy
        exact he ▸ hall r hr)
    rw [List.map_take, List.map_cons, hfilt]
    rfl
  | some p =>
    obtain ⟨r, rest⟩ := p
    obtain ⟨hid, hrest⟩ := removeFirstById_some c.id l r rest hrm hnd
    rw [List.map_take, List.map_cons]
    have : ({ r with importedAt := now } : IMRec).id = c.id := hid
    rw [this, hrest, filter_map_ne IMRec.id c.id l]

theorem trackIM_foldl_map (now : Int) (ty : String) :
    ∀ (cs : List Card) (l : List IMRec),
      (l.map IMRec.id).Nodup →
      (cs.foldl (fun l c => trackIMList now l c ty) l).map IMRec.id
        = (cs.map Card.id).foldl (upsertIds 500) (l.map IMRec.id) := by
  intro cs
  induction cs with
  | nil => intro l _; rfl
  | cons c cs ih =>
    intro l hnd
    simp only [List.foldl_cons, List.map_cons]
    have hstep := trackIMList_map now l c ty hnd
    have hnd' : ((trackIMList now l c ty).map IMRec.id).Nodup := by
      rw [hstep]
      exact upsertIds_nodup 500 hnd c.id
    rw [ih _ hnd', hstep]

-- ## Relating the stateful operations to the pure list steps

theorem addToRecentlyViewed_enabled (s : Settings) (w : World)
    (rv : List RVRec) (c : Card) (hs : s.recentlyViewedEnabled = true) :
    addToRecentlyViewed s w rv (some c)
      = (let l := addRVList (jsOr10 s.maxRecentlyViewed) rv c
         ({ w with cache := { w.cache with recentlyViewed := l }
                   backend := idbSet w.backend rvKey (.rv l) }, l)) := by
  simp [addToRecentlyViewed, hs]

theorem rvRun_foldl (s : Settings) (hs : s.recentlyViewedEnabled = true) :
    ∀ (cs : List Card) (w : World) (l : List RVRec),
      (cs.foldl (fun p c => addToRecentlyViewed s p.1 p.2 (some c)) (w, l)).2
        = cs.foldl (addRVList (jsOr10 s.maxRecentlyViewed)) l := by
  intro cs
  induction cs with
  | nil => intro w l; rfl
  | cons c cs ih =>
    intro w l
    simp only [List.foldl_cons]
    rw [addToRecentlyViewed_enabled s w l c hs]
    exact ih _ _

theorem rvRun_ids (s : Settings) (w : World) (cs : List Card)
    (hs : s.recentlyViewedEnabled = true) :
    (rvRun s w cs).2.map RVRec.id
      = (mrd (cs.map Card.id)).take (jsOr10 s.maxRecentlyViewed) := by
  unfold rvRun
  rw [rvRun_foldl s hs cs w [], addRV_foldl_map]
  simpa using upsertIds_foldl_nil (jsOr10 s.maxRecentlyViewed) (cs.map Card.id)

theorem addBookmark_cache (now : Int) (w : World) (c : Card) :
    (addBookmark now w (some c)).1.cache.bookmarks
      = addBMList now w.cache.bookmarks c := by
  by_cases h : w.cache.bookmarks.any (fun b => b.id == c.id)
  · simp [addBookmark, addBMList, loadBookmarks, h]
  · simp [addBookmark, addBMList, loadBookmarks, saveBookmarks, h]

theorem bmRun_cache (now : Int) :
    ∀ (cs : List Card) (w : World),
      (bmRun now w cs).cache.bookmarks
        = cs.foldl (addBMList now) w.cache.bookmarks := by
  intro cs
  induction cs with
  | nil => intro w; rfl
  | cons c cs ih =>
    intro w
    simp only [bmRun, List.foldl_cons]
    have := ih (addBookmark now w (some c)).1
    simp only [bmRun] at this
    rw [this, addBookmark_cache]

theorem bmRun_ids (now : Int) (w : World) (cs : List Card)
    (hw : w.cache.bookmarks = []) :
    (bmRun now w cs).cache.bookmarks.map BMRec.id = fdr (cs.map Card.id) := by
  rw [bmRun_cache now cs w, hw, addBM_foldl_map]
  rfl

theorem trackImportedCard_cache (now : Int) (w : World) (c : Card)
    (ty : String) :
    (trackImportedCard now w (some c) ty).1.cache.importedCards
      = trackIMList now w.cache.importedCards c ty := by
  simp [trackImportedCard, loadImportedCards, saveImportedCards]

theorem imRun_cache (now : Int) (ty : String) :
    ∀ (cs : List Card) (w : World),
      (imRun now ty w cs).cache.importedCards
        = cs.foldl (fun l c => trackIMList now l c ty) w.cache.importedCards := by
  intro cs
  induction cs with
  | nil => intro w; rfl
  | cons c cs ih =>
    intro w
    simp only [imRun, List.foldl_cons]
    have := ih (trackImportedCard now w (some c) ty).1
    simp only [imRun] at this
    rw [this, trackImportedCard_cache]

theorem imRun_ids (now : Int) (ty : String) (w : World) (cs : List Card)
    (hw : w.cache.importedCards = []) :
    (imRun now ty w cs).cache.importedCards.map IMRec.id
      = (mrd (cs.map Card.id)).take 500 := by
  rw [imRun_cache now ty cs w, hw]
  have h := trackIM_foldl_map now ty cs [] (by simp)
  simp only [List.map_nil] at h
  rw [h, upsertIds_foldl_nil]

-- ## Initialization lemmas

theorem initializeStorage_initialized (w : World) :
    (initializeStorage w).initialized = true := by
  by_cases h : w.initialized
  · simp [initializeStorage, h]
  · simp [initializeStorage, h]

theorem migrateKey_durable (w : World) (key k : String) (v : Val)
    (h : idbGet w.backend k = some v) (hv : jsTruthy (some v) = true) :
    idbGet (migrateKey w key).backend k = some v := by
  unfold migrateKey
  dsimp only
  cases hls : lsGetItem w.backend key with
  | none =>
    cases hidb : idbGet w.backend key with
    | some u => simpa using h
    | none => simpa using h
  | some lsv =>
    cases lsv with
    | bad =>
      cases hidb : idbGet w.backend key with
      | some u => simpa using h
      | none => simpa using h
    | good parsed =>
      cases hjt : jsTruthy (idbGet w.backend key) with
      | true =>
        cases hidb : idbGet w.backend key with
        | some u => simpa using h
        | none => simpa using h
      | false =>
        have hne : key ≠ k := by
          intro he
          rw [he, h, hv] at hjt
          cases hjt
        show idbGet (idbSet w.backend key parsed) k = some v
        rw [idbGet_idbSet_ne w.backend key k parsed hne]
        exact h

theorem migrate_foldl_durable :
    ∀ (keys : List String) (w : World) (k : String) (v : Val),
      idbGet w.backend k = some v → jsTruthy (some v) = true →
      idbGet (keys.foldl migrateKey w).backend k = some v := by
  intro keys
  induction keys with
  | nil => intro w k v h _; exact h
  | cons key keys ih =>
    intro w k v h hv
    simp only [List.foldl_cons]
    exact ih _ k v (migrateKey_durable w key k v h hv) hv

theorem initializeStorage_durable (w : World) (k : String) (v : Val)
    (h : idbGet w.backend k = some v) (hv : jsTruthy (some v) = true) :
    idbGet (initializeStorage w).backend k = some v := by
  unfold initializeStorage
  by_cases hi : w.initialized
  · simpa [hi] using h
  · simp only [hi, if_false]
    exact migrate_foldl_durable storageKeys w k v h hv

-- ## Helper lemmas for the claim theorems

theorem jsOr10_pos (n : Nat) (h : 1 ≤ n) : jsOr10 n = n := by
  unfold jsOr10
  rw [if_neg (by omega)]

theorem loadRecentlyViewed_short (s : Settings) (w : World)
    (hs : s.recentlyViewedEnabled = true)
    (hlen : w.cache.recentlyViewed.length ≤ jsOr10 s.maxRecentlyViewed) :
    loadRecentlyViewed s w = (w, w.cache.recentlyViewed) := by
  unfold loadRecentlyViewed
  rw [hs]
  simp [Nat.not_lt.mpr hlen]

theorem addBookmark_load (now : Int) (w : World) (card : Option Card) :
    loadBookmarks (addBookmark now w card).1 = (addBookmark now w card).2 := by
  cases card with
  | none => rfl
  | some c =>
    by_cases h : w.cache.bookmarks.any (fun b => b.id == c.id)
    · simp [addBookmark, loadBookmarks, h]
    · simp [addBookmark, loadBookmarks, saveBookmarks, h]

theorem addRVList_length (M : Nat) (l : List RVRec) (c : Card) :
    (addRVList M l c).length ≤ M :=
  List.length_take_le ..

theorem addRV_load (s : Settings) (w : World) (rv : List RVRec) (c : Card)
    (hs : s.recentlyViewedEnabled = true) :
    (loadRecentlyViewed s (addToRecentlyViewed s w rv (some c)).1).2
      = (addToRecentlyViewed s w rv (some c)).2 := by
  rw [addToRecentlyViewed_enabled s w rv c hs]
  simp only
  rw [loadRecentlyViewed_short s _ hs (by simpa using addRVList_length (jsOr10 s.maxRecentlyViewed) rv c)]

theorem length_filter_lt {α : Type} (p : α → Bool) :
    ∀ l : List α, (∃ b ∈ l, p b = false) → (l.filter p).length < l.length := by
  intro l
  induction l with
  | nil => rintro ⟨b, hb, _⟩; cases hb
  | cons a t ih =>
    rintro ⟨b, hb, hpb⟩
    by_cases hpa : p a = true
    · have hbt : b ∈ t := by
        rcases List.mem_cons.mp hb with h1 | h2
        · rw [h1] at hpb; rw [hpa] at hpb; cases hpb
        · exact h2
      have := ih ⟨b, hbt, hpb⟩
      have e1 : (a :: t).filter p = a :: t.filter p := by
        simp [List.filter_cons, hpa]
      rw [e1, List.length_cons, List.length_cons]
      omega
    · have hfa : p a = false := Bool.eq_false_iff.mpr hpa
      have hle := List.length_filter_le p t
      have e1 : (a :: t).filter p = t.filter p := by
        simp [List.filter_cons, hfa]
      rw [e1, List.length_cons]
      omega

theorem removeFirstById_id (i : String) :
    ∀ (l : List IMRec) (r : IMRec) (rest : List IMRec),
      removeFirstById i l = some (r, rest) → r.id = i := by
  intro l
  induction l with
  | nil => intro r rest h; cases h
  | cons a t ih =>
    intro r rest h
    unfold removeFirstById at h
    by_cases ha : a.id = i
    · rw [if_pos ha] at h
      injection h with h'
      injection h' with h1 _
      exact h1 ▸ ha
    · rw [if_neg ha] at h
      cases hrt : removeFirstById i t with
      | none => rw [hrt] at h; cases h
      | some p =>
        obtain ⟨x, rest'⟩ := p
        rw [hrt] at h
        injection h with h'
        injection h' with h1 _
        exact h1 ▸ ih x rest' hrt

theorem trackIMList_head (now : Int) (l : List IMRec) (c : Card) (ty : String) :
    (trackIMList now l c ty).head?.map IMRec.id = some c.id := by
  unfold trackIMList
  cases hrm : removeFirstById c.id l with
  | none => rfl
  | some p =>
    obtain ⟨r, rest⟩ := p
    have hid := removeFirstById_id c.id l r rest hrm
    simp [List.take_succ_cons, hid]

theorem initializeStorage_noop (w : World) (h : w.initialized = true) :
    initializeStorage w = w := by
  simp [initializeStorage, h]

/-- A world whose backing stores are forced to fail on every operation. -/
def forceFail (w : World) : World :=
  { w with backend := { w.backend with lfFail := true, lsFail := true } }

-- ## Concrete inputs for witnesses and counterexamples

def cardA : Card := { id := "a", fields := "" }

def cardB : Card := { id := "b", fields := "" }

def exSearch : SearchData := { filters := "f", sortBy := "s" }

/-- Settings with recently-viewed on and a configured maximum of 2. -/
def sRV2 : Settings :=
  { persistentSearchEnabled := false, recentlyViewedEnabled := true
    maxRecentlyViewed := 2 }

/-- Settings with recently-viewed on and a configured maximum of 0. -/
def sZero : Settings :=
  { persistentSearchEnabled := false, recentlyViewedEnabled := true
    maxRecentlyViewed := 0 }

/-- Settings with persistent search on but recently-viewed off. -/
def sPS : Settings :=
  { persistentSearchEnabled := true, recentlyViewedEnabled := false
    maxRecentlyViewed := 0 }

/-- A backend whose durable store fails. -/
def failingBackend : Backend :=
  { lf := [], lfFail := true, ls := [], lsFail := false }

/-- A world with one durable entry under the bookmarks key and an
unparsable legacy entry under the same key. -/
def durableWorld : World :=
  { emptyWorld with backend :=
      { lf := [(bmKey, .bm [])], lfFail := false
        ls := [(bmKey, .bad)], lsFail := false } }

-- ## Claim theorems

/-- Claim C3: for every key, payload and ttl > 0, a set followed
immediately by a get returns the payload; a get evaluated when
now - capturedAt is not < ttl returns absent; and the expired entry
remains stored, untouched by the read. -/
theorem ttl_cache_set_get (b : Backend) (k v : String) (ttl now later : Int)
    (hfail : b.lfFail = false) (hnow : 0 < now) (httl : 0 < ttl)
    (hexp : ¬ (later - now < ttl)) :
    idbGetCachedApi now (idbSetCachedApi now b k v) k ttl = some v ∧
    idbGetCachedApi later (idbSetCachedApi now b k v) k ttl = none ∧
    idbGet (idbSetCachedApi now b k v) k = some (.cacheEntry now v) := by
  have hset : idbGet (idbSetCachedApi now b k v) k = some (.cacheEntry now v) :=
    idbGet_idbSet_self b k _ hfail
  refine ⟨?_, ?_, hset⟩
  · unfold idbGetCachedApi
    rw [hset]
    have h1 : now - now < ttl := by omega
    simp [hnow.ne', h1, httl]
  · unfold idbGetCachedApi
    rw [hset]
    simp [hexp]

/-- Witness for C3 at key "k", payload "p", ttl 100, write at time 5,
expired read at time 200. -/
theorem ttl_cache_set_get_witness :
    idbGetCachedApi 5 (idbSetCachedApi 5 emptyWorld.backend "k" "p") "k" 100
        = some "p" ∧
    idbGetCachedApi 200 (idbSetCachedApi 5 emptyWorld.backend "k" "p") "k" 100
        = none ∧
    idbGet (idbSetCachedApi 5 emptyWorld.backend "k" "p") "k"
        = some (.cacheEntry 5 "p") :=
  ttl_cache_set_get emptyWorld.backend "k" "p" 100 5 200 rfl (by decide)
    (by decide) (by decide)

/-- A world with a falsy durable value (`false` under the searchCollapsed
key) and a truthy legacy value under the same key — reachable because
`saveSearchCollapsed(false)` stores `false` durably and legacy entries are
deliberately never deleted after migration. -/
def falsyDurableWorld : World :=
  { emptyWorld with backend :=
      { lf := [(collapsedKey, .bool false)], lfFail := false
        ls := [(collapsedKey, .good (.bool true))], lsFail := false } }

/-- Claim C4 counterexample: a pre-existing durable value CAN be
overwritten by a legacy value of the same key: a durable boolean `false`
under the searchCollapsed key is falsy, so the migration guard
`if (lsVal && !idbVal)` fires even though the durable value is present,
and the legacy `true` replaces it. -/
theorem initializeStorage_overwrites_falsy_durable :
    idbGet falsyDurableWorld.backend collapsedKey = some (.bool false) ∧
    idbGet (initializeStorage falsyDurableWorld).backend collapsedKey
      = some (.bool true) := by
  constructor <;> decide

/-- Claim C4 (amended): initializeStorage is idempotent (the second call
is a no-op guarded by the initialized flag), and a pre-existing TRUTHY
durable value is never overwritten by a legacy value of the same key
during migration; the one falsy value the module stores, boolean `false`,
is exempt — the migration guard treats it like an absent value and the
legacy value overwrites it, as the counterexample shows. -/
theorem initializeStorage_idempotent_truthy_durable :
    (∀ w : World, initializeStorage (initializeStorage w) = initializeStorage w) ∧
    (∀ (w : World) (k : String) (v : Val),
       idbGet w.backend k = some v → jsTruthy (some v) = true →
       idbGet (initializeStorage w).backend k = some v) :=
  ⟨fun w => initializeStorage_noop _ (initializeStorage_initialized w),
   fun w k v h hv => initializeStorage_durable w k v h hv⟩

/-- Witness for the amended C4: a truthy durable bookmarks value survives
initialization even though an unparsable legacy value sits under the same
key. -/
theorem initializeStorage_idempotent_truthy_durable_witness :
    idbGet (initializeStorage durableWorld).backend bmKey = some (.bm []) :=
  initializeStorage_idempotent_truthy_durable.2 durableWorld bmKey (.bm [])
    (by decide) (by decide)

/-- Claim C7: the durable-store adapter never raises: a failing durable
write falls back to a best-effort legacy write (whose own failure is also
swallowed) and returns normally, and a failing durable read returns
absent. -/
theorem idb_adapter_never_raises (b : Backend) (k : String) (v : Val)
    (hfail : b.lfFail = true) :
    idbSet b k v = (if b.lsFail then b
                    else { b with ls := assocSet b.ls k (.good v) }) ∧
    idbGet b k = none := by
  constructor
  · by_cases hs : b.lsFail <;> simp [idbSet, lfSetItem, lsSetItemE, hfail, hs]
  · simp [idbGet, lfGetItem, hfail]

/-- Witness for C7 on a concrete failing backend. -/
theorem idb_adapter_never_raises_witness :
    (idbSet failingBackend "k" (.bool true)
       = if failingBackend.lsFail then failingBackend
         else { failingBackend with
                  ls := assocSet failingBackend.ls "k" (.good (.bool true)) }) ∧
    idbGet failingBackend "k" = none :=
  idb_adapter_never_raises failingBackend "k" (.bool true) rfl

def exStats : ImportStats := { blob := "x" }

/-- A world with one bookmark and one imported card, both with id "a". -/
def bmWorld : World :=
  { emptyWorld with cache :=
      { initialCache with
          bookmarks := [{ id := "a", fields := "", bookmarkedAt := 0 }]
          importedCards :=
            [{ id := "a", fields := "", recType := "character", importedAt := 0 }] } }

/-- Claim C5: read-after-write consistency: a mutator's synchronous result
is exactly what the very next synchronous accessor returns, and accessors
do not depend on the durable backend at all (so durable-write completion
is irrelevant). -/
theorem read_after_write (now : Int) (s : Settings) (w : World)
    (card : Option Card) (c : Card) (rv : List RVRec) (st : ImportStats)
    (bms : List BMRec) (b' : Backend)
    (hs : s.recentlyViewedEnabled = true) :
    loadBookmarks (addBookmark now w card).1 = (addBookmark now w card).2 ∧
    loadImportStats (saveImportStats w st) = st ∧
    loadBookmarks (saveBookmarks w bms) = bms ∧
    (loadRecentlyViewed s (addToRecentlyViewed s w rv (some c)).1).2
      = (addToRecentlyViewed s w rv (some c)).2 ∧
    loadBookmarks { w with backend := b' } = loadBookmarks w ∧
    loadImportStats { w with backend := b' } = loadImportStats w :=
  ⟨addBookmark_load now w card, rfl, rfl, addRV_load s w rv c hs, rfl, rfl⟩

/-- Witness for C5 at concrete inputs. -/
theorem read_after_write_witness :
    loadBookmarks (addBookmark 0 emptyWorld (some cardA)).1
      = (addBookmark 0 emptyWorld (some cardA)).2 ∧
    loadImportStats (saveImportStats emptyWorld exStats) = exStats ∧
    loadBookmarks (saveBookmarks emptyWorld []) = [] ∧
    (loadRecentlyViewed sRV2 (addToRecentlyViewed sRV2 emptyWorld [] (some cardA)).1).2
      = (addToRecentlyViewed sRV2 emptyWorld [] (some cardA)).2 ∧
    loadBookmarks { emptyWorld with backend := failingBackend }
      = loadBookmarks emptyWorld ∧
    loadImportStats { emptyWorld with backend := failingBackend }
      = loadImportStats emptyWorld :=
  read_after_write 0 sRV2 emptyWorld (some cardA) cardA [] exStats []
    failingBackend rfl

/-- Claim C6: exceptions inside a collection operation are caught at the
operation boundary and the unmodified prior collection is returned; a
forced durable-store failure changes neither a mutation's synchronous
return value nor what the next accessor reads. -/
theorem mutation_error_containment (now : Int) (s : Settings) (w : World)
    (rv : List RVRec) (c : Card) (ty : String)
    (hs : s.recentlyViewedEnabled = true) :
    addToRecentlyViewed s w rv none = (w, rv) ∧
    addBookmark now w none = (w, w.cache.bookmarks) ∧
    trackImportedCard now w none ty = (w, w.cache.importedCards) ∧
    (addBookmark now (forceFail w) (some c)).2 = (addBookmark now w (some c)).2 ∧
    loadBookmarks (addBookmark now (forceFail w) (some c)).1
      = (addBookmark now (forceFail w) (some c)).2 ∧
    (addToRecentlyViewed s (forceFail w) rv (some c)).2
      = (addToRecentlyViewed s w rv (some c)).2 ∧
    (loadRecentlyViewed s (addToRecentlyViewed s (forceFail w) rv (some c)).1).2
      = (addToRecentlyViewed s (forceFail w) rv (some c)).2 := by
  refine ⟨?_, rfl, rfl, ?_, addBookmark_load now (forceFail w) (some c),
          ?_, addRV_load s (forceFail w) rv c hs⟩
  · by_cases h : s.recentlyViewedEnabled <;> simp [addToRecentlyViewed, h]
  · by_cases h : w.cache.bookmarks.any (fun b => b.id == c.id) <;>
      simp [addBookmark, loadBookmarks, saveBookmarks, forceFail, h]
  · rw [addToRecentlyViewed_enabled s (forceFail w) rv c hs,
        addToRecentlyViewed_enabled s w rv c hs]

/-- Witness for C6 at concrete inputs. -/
theorem mutation_error_containment_witness :
    addToRecentlyViewed sRV2 emptyWorld [] none = (emptyWorld, []) ∧
    addBookmark 0 emptyWorld none = (emptyWorld, emptyWorld.cache.bookmarks) ∧
    trackImportedCard 0 emptyWorld none "character"
      = (emptyWorld, emptyWorld.cache.importedCards) ∧
    (addBookmark 0 (forceFail emptyWorld) (some cardA)).2
      = (addBookmark 0 emptyWorld (some cardA)).2 ∧
    loadBookmarks (addBookmark 0 (forceFail emptyWorld) (some cardA)).1
      = (addBookmark 0 (forceFail emptyWorld) (some cardA)).2 ∧
    (addToRecentlyViewed sRV2 (forceFail emptyWorld) [] (some cardA)).2
      = (addToRecentlyViewed sRV2 emptyWorld [] (some cardA)).2 ∧
    (loadRecentlyViewed sRV2
        (addToRecentlyViewed sRV2 (forceFail emptyWorld) [] (some cardA)).1).2
      = (addToRecentlyViewed sRV2 (forceFail emptyWorld) [] (some cardA)).2 :=
  mutation_error_containment 0 sRV2 emptyWorld [] cardA "character" rfl

/-- Claim C9: removing an absent id returns the original collection with
the world untouched (no durable write scheduled); removing a present id
returns the collection with the matching element filtered out and persists
it. -/
theorem remove_absent_noop_present_filters (w : World) (cardId : String) :
    ((∀ b ∈ w.cache.bookmarks, b.id ≠ cardId) →
       removeBookmark w cardId = (w, w.cache.bookmarks)) ∧
    ((∃ b ∈ w.cache.bookmarks, b.id = cardId) →
       removeBookmark w cardId
         = (saveBookmarks w (w.cache.bookmarks.filter (fun b => b.id ≠ cardId)),
            w.cache.bookmarks.filter (fun b => b.id ≠ cardId))) ∧
    ((∀ r ∈ w.cache.importedCards, r.id ≠ cardId) →
       removeImportedCard w cardId = (w, w.cache.importedCards)) ∧
    ((∃ r ∈ w.cache.importedCards, r.id = cardId) →
       removeImportedCard w cardId
         = (saveImportedCards w
              (w.cache.importedCards.filter (fun r => r.id ≠ cardId)),
            w.cache.importedCards.filter (fun r => r.id ≠ cardId))) := by
  refine ⟨?_, ?_, ?_, ?_⟩
  · intro h
    have hfilt : w.cache.bookmarks.filter (fun b => b.id ≠ cardId)
        = w.cache.bookmarks :=
      List.filter_eq_self.mpr (fun b hb => by
        simp only [decide_eq_true_eq]
        exact h b hb)
    simp only [removeBookmark, loadBookmarks]
    rw [hfilt]
    simp
  · rintro ⟨b0, hb0, hid⟩
    have hlt : (w.cache.bookmarks.filter (fun b => b.id ≠ cardId)).length
        < w.cache.bookmarks.length :=
      length_filter_lt _ w.cache.bookmarks ⟨b0, hb0, by simp [hid]⟩
    simp only [removeBookmark, loadBookmarks]
    rw [if_pos hlt]
  · intro h
    have hfilt : w.cache.importedCards.filter (fun r => r.id ≠ cardId)
        = w.cache.importedCards :=
      List.filter_eq_self.mpr (fun r hr => by
        simp only [decide_eq_true_eq]
        exact h r hr)
    simp only [removeImportedCard, loadImportedCards]
    rw [hfilt]
    simp
  · rintro ⟨r0, hr0, hid⟩
    have hlt : (w.cache.importedCards.filter (fun r => r.id ≠ cardId)).length
        < w.cache.importedCards.length :=
      length_filter_lt _ w.cache.importedCards ⟨r0, hr0, by simp [hid]⟩
    simp only [removeImportedCard, loadImportedCards]
    rw [if_pos hlt]

/-- Witness for C9: an absent id is a no-op, a present id is filtered out
and persisted. -/
theorem remove_absent_noop_present_filters_witness :
    removeBookmark bmWorld "zzz" = (bmWorld, bmWorld.cache.bookmarks) ∧
    removeBookmark bmWorld "a"
      = (saveBookmarks bmWorld
           (bmWorld.cache.bookmarks.filter (fun b => b.id ≠ "a")),
         bmWorld.cache.bookmarks.filter (fun b => b.id ≠ "a")) ∧
    removeImportedCard bmWorld "zzz" = (bmWorld, bmWorld.cache.importedCards) ∧
    removeImportedCard bmWorld "a"
      = (saveImportedCards bmWorld
           (bmWorld.cache.importedCards.filter (fun r => r.id ≠ "a")),
         bmWorld.cache.importedCards.filter (fun r => r.id ≠ "a")) :=
  ⟨(remove_absent_noop_present_filters bmWorld "zzz").1 (by decide),
   (remove_absent_noop_present_filters bmWorld "a").2.1 (by decide),
   (remove_absent_noop_present_filters bmWorld "zzz").2.2.1 (by decide),
   (remove_absent_noop_present_filters bmWorld "a").2.2.2 (by decide)⟩

/-- Claim C1 counterexample: adding bookmarks with ids a, b, a leaves the
collection as [b, a] — the repeated id is NOT moved to the front, so the
claimed result [a, b] is false for addBookmark. -/
theorem addBookmark_abab_not_upsert_front :
    (bmRun 0 emptyWorld [cardA, cardB, cardA]).cache.bookmarks.map BMRec.id
      = ["b", "a"] ∧
    (bmRun 0 emptyWorld [cardA, cardB, cardA]).cache.bookmarks.map BMRec.id
      ≠ ["a", "b"] := by
  constructor <;> decide

/-- Claim C1 (amended): for any insertion sequence from the empty
collections, each id appears exactly once in every collection;
addToRecentlyViewed and trackImportedCard place each id at the position of
its most recent insertion (up to their capacity), while addBookmark keeps
an already-present id at the position of its FIRST insertion (re-adds are
skipped, not moved to the front). -/
theorem collections_dedup_most_recent_amended (s : Settings) (w : World)
    (now : Int) (ty : String) (cs : List Card)
    (hs : s.recentlyViewedEnabled = true)
    (hbm : w.cache.bookmarks = [])
    (him : w.cache.importedCards = []) :
    ((rvRun s w cs).2.map RVRec.id).Nodup ∧
    (rvRun s w cs).2.map RVRec.id
      = (mrd (cs.map Card.id)).take (jsOr10 s.maxRecentlyViewed) ∧
    ((imRun now ty w cs).cache.importedCards.map IMRec.id).Nodup ∧
    (imRun now ty w cs).cache.importedCards.map IMRec.id
      = (mrd (cs.map Card.id)).take 500 ∧
    ((bmRun now w cs).cache.bookmarks.map BMRec.id).Nodup ∧
    (bmRun now w cs).cache.bookmarks.map BMRec.id = fdr (cs.map Card.id) := by
  have hrv := rvRun_ids s w cs hs
  have him2 := imRun_ids now ty w cs him
  have hbm2 := bmRun_ids now w cs hbm
  refine ⟨?_, hrv, ?_, him2, ?_, hbm2⟩
  · rw [hrv]
    exact (mrd_nodup _).sublist (List.take_sublist ..)
  · rw [him2]
    exact (mrd_nodup _).sublist (List.take_sublist ..)
  · rw [hbm2]
    exact fdr_nodup _

/-- Witness for the amended C1 on the insertion sequence a, b, a. -/
theorem collections_dedup_most_recent_amended_witness :
    ((rvRun sRV2 emptyWorld [cardA, cardB, cardA]).2.map RVRec.id).Nodup ∧
    (rvRun sRV2 emptyWorld [cardA, cardB, cardA]).2.map RVRec.id
      = (mrd ([cardA, cardB, cardA].map Card.id)).take (jsOr10 sRV2.maxRecentlyViewed) ∧
    ((imRun 0 "character" emptyWorld [cardA, cardB, cardA]).cache.importedCards.map
        IMRec.id).Nodup ∧
    (imRun 0 "character" emptyWorld [cardA, cardB, cardA]).cache.importedCards.map
        IMRec.id = (mrd ([cardA, cardB, cardA].map Card.id)).take 500 ∧
    ((bmRun 0 emptyWorld [cardA, cardB, cardA]).cache.bookmarks.map BMRec.id).Nodup ∧
    (bmRun 0 emptyWorld [cardA, cardB, cardA]).cache.bookmarks.map BMRec.id
      = fdr ([cardA, cardB, cardA].map Card.id) :=
  collections_dedup_most_recent_amended sRV2 emptyWorld 0 "character"
    [cardA, cardB, cardA] rfl rfl rfl

/-- Closed form of `loadRecentlyViewed` when the feature flag is on. -/
theorem loadRecentlyViewed_eq (s : Settings) (w : World)
    (hs : s.recentlyViewedEnabled = true) :
    loadRecentlyViewed s w =
      if w.cache.recentlyViewed.length > jsOr10 s.maxRecentlyViewed then
        ({ w with cache := { w.cache with
             recentlyViewed := w.cache.recentlyViewed.take (jsOr10 s.maxRecentlyViewed) } },
         w.cache.recentlyViewed.take (jsOr10 s.maxRecentlyViewed))
      else (w, w.cache.recentlyViewed) := by
  unfold loadRecentlyViewed
  rw [hs]
  simp

/-- The collection returned by `loadRecentlyViewed` respects the effective
bound. -/
theorem loadRecentlyViewed_length (s : Settings) (w : World)
    (hs : s.recentlyViewedEnabled = true) :
    (loadRecentlyViewed s w).2.length ≤ jsOr10 s.maxRecentlyViewed := by
  rw [loadRecentlyViewed_eq s w hs]
  by_cases hlong : w.cache.recentlyViewed.length > jsOr10 s.maxRecentlyViewed
  · simp only [hlong, if_pos]
    exact List.length_take_le ..
  · simp only [hlong, if_neg, if_false]
    omega

/-- Claim C2 counterexample: with configured maximum M = 0 the claimed
bound length ≤ M fails after a single insertion, because the code replaces
the falsy maximum 0 by the default 10. -/
theorem recentlyViewed_zero_max_exceeds_bound :
    sZero.maxRecentlyViewed = 0 ∧
    ¬ ((rvRun sZero emptyWorld [cardA]).2.length ≤ sZero.maxRecentlyViewed) := by
  constructor <;> decide

/-- Claim C2 (amended): for every configured maximum M ≥ 1 and any
insertion sequence, the recently-viewed collection has length ≤ M after
every call (including the truncating read), and the retained elements are
exactly the M most recently inserted/updated distinct ids; a configured
M = 0 is replaced by the default 10. -/
theorem recentlyViewed_bound_retention_amended (s : Settings) (w : World)
    (cs : List Card) (rv : List RVRec) (c : Card)
    (hs : s.recentlyViewedEnabled = true) (hM : 1 ≤ s.maxRecentlyViewed) :
    (addToRecentlyViewed s w rv (some c)).2.length ≤ s.maxRecentlyViewed ∧
    (loadRecentlyViewed s w).2.length ≤ s.maxRecentlyViewed ∧
    (rvRun s w cs).2.length ≤ s.maxRecentlyViewed ∧
    (rvRun s w cs).2.map RVRec.id
      = (mrd (cs.map Card.id)).take s.maxRecentlyViewed := by
  have hM10 : jsOr10 s.maxRecentlyViewed = s.maxRecentlyViewed :=
    jsOr10_pos s.maxRecentlyViewed hM
  have hrv := rvRun_ids s w cs hs
  rw [hM10] at hrv
  refine ⟨?_, ?_, ?_, hrv⟩
  · rw [addToRecentlyViewed_enabled s w rv c hs]
    simpa [hM10] using addRVList_length (jsOr10 s.maxRecentlyViewed) rv c
  · have := loadRecentlyViewed_length s w hs
    rwa [hM10] at this
  · have hlen : (rvRun s w cs).2.length
        = ((mrd (cs.map Card.id)).take s.maxRecentlyViewed).length := by
      rw [← List.length_map (rvRun s w cs).2 RVRec.id, hrv]
    rw [hlen]
    exact List.length_take_le ..

/-- Witness for the amended C2 with M = 2 and insertions a, b, a. -/
theorem recentlyViewed_bound_retention_amended_witness :
    (addToRecentlyViewed sRV2 emptyWorld [] (some cardA)).2.length
        ≤ sRV2.maxRecentlyViewed ∧
    (loadRecentlyViewed sRV2 emptyWorld).2.length ≤ sRV2.maxRecentlyViewed ∧
    (rvRun sRV2 emptyWorld [cardA, cardB, cardA]).2.length
        ≤ sRV2.maxRecentlyViewed ∧
    (rvRun sRV2 emptyWorld [cardA, cardB, cardA]).2.map RVRec.id
      = (mrd ([cardA, cardB, cardA].map Card.id)).take sRV2.maxRecentlyViewed :=
  recentlyViewed_bound_retention_amended sRV2 emptyWorld [cardA, cardB, cardA]
    [] cardA rfl (by decide)

/-- A world whose mirror holds one recently-viewed entry. -/
def rvWorld1 : World :=
  { emptyWorld with cache :=
      { initialCache with recentlyViewed := [{ id := "a", fields := "" }] } }

/-- A world whose mirror holds three recently-viewed entries. -/
def rvWorld3 : World :=
  { emptyWorld with cache :=
      { initialCache with recentlyViewed :=
          [{ id := "a", fields := "" }, { id := "b", fields := "" },
           { id := "c", fields := "" }] } }

/-- Claim C8 counterexample: the persistent-search operations are NOT
gated by the recently-viewed flag: with recentlyViewedEnabled = false but
persistentSearchEnabled = true, save still stores and load still returns
the value instead of being a no-op / absent. -/
theorem persistentSearch_not_gated_by_rv_flag :
    sPS.recentlyViewedEnabled = false ∧
    loadPersistentSearch sPS
        (savePersistentSearch sPS emptyWorld "svc" exSearch) "svc"
      = some exSearch ∧
    savePersistentSearch sPS emptyWorld "svc" exSearch ≠ emptyWorld := by
  refine ⟨rfl, ?_, ?_⟩ <;> decide

/-- Claim C8 (amended): addToRecentlyViewed is gated by
recentlyViewedEnabled (disabled: returns its input unmodified, world
untouched); savePersistentSearch and loadPersistentSearch are gated by
their own flag persistentSearchEnabled (disabled: save is a no-op and load
returns absent); trackImportedCard consults no flag and always records the
card at the front of the import history. -/
theorem feature_flag_gating_amended (s : Settings) (w : World)
    (rv : List RVRec) (card : Option Card) (svc : String) (d : SearchData)
    (now : Int) (c : Card) (ty : String)
    (hrv : s.recentlyViewedEnabled = false)
    (hps : s.persistentSearchEnabled = false) :
    addToRecentlyViewed s w rv card = (w, rv) ∧
    savePersistentSearch s w svc d = w ∧
    loadPersistentSearch s w svc = none ∧
    (trackImportedCard now w (some c) ty).2.head?.map IMRec.id = some c.id ∧
    (trackImportedCard now w (some c) ty).1.cache.importedCards
      = (trackImportedCard now w (some c) ty).2 := by
  refine ⟨?_, ?_, ?_, ?_, ?_⟩
  · simp [addToRecentlyViewed, hrv]
  · simp [savePersistentSearch, hps]
  · simp [loadPersistentSearch, hps]
  · simp only [trackImportedCard, loadImportedCards]
    exact trackIMList_head now w.cache.importedCards c ty
  · simp [trackImportedCard, saveImportedCards, loadImportedCards]

/-- Settings with both feature flags off. -/
def sOff : Settings :=
  { persistentSearchEnabled := false, recentlyViewedEnabled := false
    maxRecentlyViewed := 0 }

/-- Witness for the amended C8 at concrete inputs. -/
theorem feature_flag_gating_amended_witness :
    addToRecentlyViewed sOff emptyWorld [] (some cardA) = (emptyWorld, []) ∧
    savePersistentSearch sOff emptyWorld "svc" exSearch = emptyWorld ∧
    loadPersistentSearch sOff emptyWorld "svc" = none ∧
    (trackImportedCard 0 emptyWorld (some cardA) "character").2.head?.map IMRec.id
      = some cardA.id ∧
    (trackImportedCard 0 emptyWorld (some cardA) "character").1.cache.importedCards
      = (trackImportedCard 0 emptyWorld (some cardA) "character").2 :=
  feature_flag_gating_amended sOff emptyWorld [] (some cardA) "svc" exSearch
    0 cardA "character" rfl rfl

/-- Claim C10 counterexample: with configured maximum 0 and a mirror list
of length 1 (longer than the configured maximum), loadRecentlyViewed does
NOT truncate the mirror to the first 0 elements: the effective bound is
the default 10, so the mirror and return value keep length 1. -/
theorem loadRecentlyViewed_zero_max_no_truncation :
    sZero.maxRecentlyViewed = 0 ∧
    rvWorld1.cache.recentlyViewed.length = 1 ∧
    (loadRecentlyViewed sZero rvWorld1).1.cache.recentlyViewed
      = rvWorld1.cache.recentlyViewed ∧
    (loadRecentlyViewed sZero rvWorld1).2.length = 1 := by
  refine ⟨rfl, rfl, ?_, ?_⟩ <;> decide

/-- Claim C10 (amended): when the flag is on and the mirror list is longer
than the EFFECTIVE maximum (the configured value, with 0 replaced by the
default 10), loadRecentlyViewed truncates the mirror in place to the first
effective-maximum elements, leaves every other mirror field and the
backend untouched, and schedules no durable write. -/
theorem loadRecentlyViewed_truncates_mirror_amended (s : Settings) (w : World)
    (hs : s.recentlyViewedEnabled = true)
    (hlong : w.cache.recentlyViewed.length > jsOr10 s.maxRecentlyViewed) :
    loadRecentlyViewed s w
      = ({ w with cache := { w.cache with
             recentlyViewed :=
               w.cache.recentlyViewed.take (jsOr10 s.maxRecentlyViewed) } },
         w.cache.recentlyViewed.take (jsOr10 s.maxRecentlyViewed)) ∧
    (loadRecentlyViewed s w).1.backend = w.backend ∧
    (loadRecentlyViewed s w).1.cache.bookmarks = w.cache.bookmarks ∧
    (loadRecentlyViewed s w).1.cache.importedCards = w.cache.importedCards ∧
    (loadRecentlyViewed s w).1.cache.importStats = w.cache.importStats ∧
    (loadRecentlyViewed s w).1.cache.persistentSearches
      = w.cache.persistentSearches ∧
    (loadRecentlyViewed s w).1.cache.searchCollapsed = w.cache.searchCollapsed ∧
    (loadRecentlyViewed s w).1.initialized = w.initialized := by
  have h1 : loadRecentlyViewed s w
      = ({ w with cache := { w.cache with
             recentlyViewed :=
               w.cache.recentlyViewed.take (jsOr10 s.maxRecentlyViewed) } },
         w.cache.recentlyViewed.take (jsOr10 s.maxRecentlyViewed)) := by
    rw [loadRecentlyViewed_eq s w hs, if_pos hlong]
  refine ⟨h1, ?_, ?_, ?_, ?_, ?_, ?_, ?_⟩ <;> rw [h1]

/-- Witness for the amended C10: computed maximum 2, mirror of length 3. -/
theorem loadRecentlyViewed_truncates_mirror_amended_witness :
    loadRecentlyViewed sRV2 rvWorld3
      = ({ rvWorld3 with cache := { rvWorld3.cache with
             recentlyViewed :=
               rvWorld3.cache.recentlyViewed.take (jsOr10 sRV2.maxRecentlyViewed) } },
         rvWorld3.cache.recentlyViewed.take (jsOr10 sRV2.maxRecentlyViewed)) ∧
    (loadRecentlyViewed sRV2 rvWorld3).1.backend = rvWorld3.backend ∧
    (loadRecentlyViewed sRV2 rvWorld3).1.cache.bookmarks
      = rvWorld3.cache.bookmarks ∧
    (loadRecentlyViewed sRV2 rvWorld3).1.cache.importedCards
      = rvWorld3.cache.importedCards ∧
    (loadRecentlyViewed sRV2 rvWorld3).1.cache.importStats
      = rvWorld3.cache.importStats ∧
    (loadRecentlyViewed sRV2 rvWorld3).1.cache.persistentSearches
      = rvWorld3.cache.persistentSearches ∧
    (loadRecentlyViewed sRV2 rvWorld3).1.cache.searchCollapsed
      = rvWorld3.cache.searchCollapsed ∧
    (loadRecentlyViewed sRV2 rvWorld3).1.initialized = rvWorld3.initialized :=
  loadRecentlyViewed_truncates_mirror_amended sRV2 rvWorld3 rfl (by decide)
